import Mathlib

/-!
# Verification of the `ibuilder` interactive-builder engine

This file is a shallow embedding, in Lean 4, of the runtime core of the
`ibuilder` crate (`ibuilder/src/lib.rs`, `ibuilder/src/builders.rs`) together
with the record/union builder code emitted by its derive macro
(`ibuilder_derive/src/struct_gen/named_fields.rs`,
`ibuilder_derive/src/enum_gen/enum_buildable_value_gen.rs`).

Modelling conventions:
* Rust `&mut self` methods returning `Result<(), ChooseError>` are modelled as
  pure functions returning the updated node.  Because `apply` can mutate a
  subtree before an error propagates with `?`, the error constructor carries
  the post-call node, exactly mirroring what the mutable tree holds after the
  early return.
* `panic!` / `unreachable!` / `.unwrap()` / `.expect(...)` and slice
  index-out-of-bounds aborts are modelled by a distinguished `panic` outcome
  (for `apply`) or by `Option` with `none` standing for the abort (for
  `get_options` / `get_subfields`).  They are kept separate from the
  recoverable `ChooseError` values.
* The scalar leaf builders generated by the `type_builder!` macro are generic
  over the target type's `FromStr`; the generic shape is modelled by
  `typeBuilderApply` below, and the node tree instantiates it with an `i64`
  parser (`parseI64`) and the infallible `String` parser.  `usize` parsing of
  vector indices is modelled by `parseUsize`; its overflow check is omitted
  because an index that overflows `usize` is larger than any representable
  vector length, so both the code and the model answer `UnexpectedChoice`.
* Prompt strings (`BuildableValueConfig.prompt`) only flow into
  `Options.query`; the model uses each builder's default prompt.
* Hidden record fields never appear in `apply`/`get_options`/`get_subfields`
  and always extract successfully from their mandatory default, so records are
  modelled by their non-hidden fields.  Hidden union variants are modelled
  with an explicit flag because they change which names `apply` accepts.
* States that the Rust type system cannot represent (a union whose stored
  value names an unknown variant, or whose payload presence disagrees with
  the variant kind) are tolerated by the model; the functions treat them the
  way the generated `match` arms would treat the closest representable state.
-/

set_option maxHeartbeats 2000000

namespace IBuilder

/-- `Input` from `ibuilder/src/lib.rs`: either raw text or the id of a choice. -/
inductive Input where
  | Text (s : String)
  | Choice (s : String)
deriving DecidableEq, Repr

/-- `ChooseError` from `ibuilder/src/lib.rs`: the recoverable errors of `choose`. -/
inductive ChooseError where
  | InvalidText (error : String)
  | UnexpectedText
  | UnexpectedChoice
deriving DecidableEq, Repr

/-- `FinalizeError` from `ibuilder/src/lib.rs`. -/
inductive FinalizeError where
  | MissingField
deriving DecidableEq, Repr

/-- `Choice` from `ibuilder/src/lib.rs`: one selectable menu entry. -/
structure Choice where
  choice_id : String
  text : String
  needs_action : Bool
deriving DecidableEq, Repr

/-- `Options` from `ibuilder/src/lib.rs`: the menu shown to the user. -/
structure Options where
  query : String
  text_input : Bool
  choices : List Choice
deriving DecidableEq, Repr

/-- The identifier of the "Done" choice (`FINALIZE_ID`). -/
def FINALIZE_ID : String := "__finalize"

/-- The identifier of the "Back" choice (`BACK_ID`). -/
def BACK_ID : String := "__back"

/-- The value produced by `get_value_any`, with the `Box<dyn Any>` downcasts
resolved statically: each composite layer wraps its children's values the way
the corresponding Rust `get_value_any` rebuilds the value. -/
inductive Value where
  | int (n : Int)
  | str (s : String)
  | bool (b : Bool)
  | list (items : List Value)
  | boxed (v : Value)
  | opt (v : Option Value)
  | record (fields : List (String × Value))
  | union (variant : String) (payload : Option Value)
deriving Repr

/-! ## Decimal parsing and printing

`usize::from_str` (used by `VecBuilder` for indices) and `i64::from_str`
(used by the scalar leaf builders), and `usize`'s `to_string` used to build
the index choice ids. -/

/-- Numeric value of an ASCII digit character. -/
def digitVal (c : Char) : Nat := c.toNat - 48

/-- Value of a list of ASCII digits read in base 10 (most significant first). -/
def charsToNat (l : List Char) : Nat := l.foldl (fun acc c => acc * 10 + digitVal c) 0

/-- Model of `usize::from_str`: an optional `+` sign followed by at least one
ASCII digit.  A leading `-` or any other character is an invalid digit.  The
overflow check is omitted (see the header). -/
def parseUsize (s : String) : Option Nat :=
  match s.data with
  | [] => none
  | c :: rest =>
    let digits := if c = '+' then rest else c :: rest
    if digits ≠ [] ∧ digits.all Char.isDigit then some (charsToNat digits) else none

/-- Model of `i64::from_str`: an optional sign followed by at least one ASCII
digit, with the `i64` range check; the error strings are the `Display`
messages of `std::num::ParseIntError`. -/
def parseI64 (s : String) : Except String Int :=
  match s.data with
  | [] => Except.error "cannot parse integer from empty string"
  | c :: rest =>
    let (neg, digits) :=
      if c = '-' then (true, rest)
      else if c = '+' then (false, rest)
      else (false, c :: rest)
    if digits ≠ [] ∧ digits.all Char.isDigit then
      let v : Int := if neg then -(charsToNat digits : Int) else (charsToNat digits : Int)
      if v < -(2 ^ 63) then Except.error "number too small to fit in target type"
      else if v > 2 ^ 63 - 1 then Except.error "number too large to fit in target type"
      else Except.ok v
    else Except.error "invalid digit found in string"

/-- Decimal digits of `n`, most significant first (the digits `usize`'s
`to_string` prints). -/
def natChars (n : Nat) : List Char :=
  if _h : n < 10 then [Char.ofNat (n + 48)]
  else natChars (n / 10) ++ [Char.ofNat (n % 10 + 48)]
decreasing_by exact Nat.div_lt_self (by omega) (by omega)

/-- Model of `usize`'s `to_string` (used for the `Edit item {i}` /
`Remove item {i}` choice ids of `VecBuilder`). -/
def natToString (n : Nat) : String := ⟨natChars n⟩

/-! ## The node tree -/

/-- The static shape of a buildable type: what
`T::new_buildable_value(Default::default())` needs in order to construct a
fresh builder.  `VecBuilder`, `OptionBuilder` and the generated union builder
construct fresh children at runtime, so their nodes carry the child shape. -/
inductive Shape where
  | leafInt
  | leafStr
  | leafBool
  | vec (elem : Shape)
  | box (inner : Shape)
  | opt (elem : Shape)
  | record (fields : List (String × Shape))
  | union (variants : List (String × Bool × Option Shape))
deriving Repr

/-- A union variant as the derive macro sees it: name, `hidden` flag, and the
shape of its payload builder (`none` for an empty variant). -/
abbrev UVar := String × Bool × Option Shape

/-- The runtime state of a `BuildableValue` tree: scalar leaf builders
(`I64Builder`, `StringBuilder`, `BoolBuilder`), `VecBuilder`, `BoxBuilder`,
`OptionBuilder`, and the derive-generated record and union builders.  A union
stores `some (variantName, payloadBuilder?)` once a variant was selected. -/
inductive BNode where
  | leafInt (value : Option Int)
  | leafStr (value : Option String)
  | leafBool (value : Option Bool)
  | vecB (elem : Shape) (items : List BNode)
  | boxB (inner : BNode)
  | optB (elem : Shape) (value : Option BNode)
  | recordB (fields : List (String × BNode))
  | unionB (variants : List UVar) (value : Option (String × Option BNode))
deriving Repr

/-- `new_buildable_value(Default::default())`: the freshly constructed,
default-free builder for a shape.  Matches each builder's `new`:
empty scalar, empty vector, unset option, per-field fresh record, and a union
with no selected variant (no `default` variant attribute is modelled). -/
def fresh : Shape → BNode
  | .leafInt => .leafInt none
  | .leafStr => .leafStr none
  | .leafBool => .leafBool none
  | .vec e => .vecB e []
  | .box s => .boxB (fresh s)
  | .opt e => .optB e none
  | .record fs => .recordB (freshFields fs)
  | .union vs => .unionB vs none
where
  /-- Fresh builders for a record's field list. -/
  freshFields : List (String × Shape) → List (String × BNode)
    | [] => []
    | (n, s) :: rest => (n, fresh s) :: freshFields rest

/-! ## `get_value_any` -/

/-- `get_value_any` of every builder:
* scalar leaves return their stored value (`self.value.clone().map(...)`);
* `VecBuilder` collects every item's value, aborting at the first missing one;
* `BoxBuilder` re-wraps its child's value;
* `OptionBuilder` returns `Some(None)` when unset, else wraps the child value;
* the record builder collects every field's value;
* the union builder returns `None` while no variant is selected, else the
  selected variant's (wrapped) value. -/
def BNode.getValueAny : BNode → Option Value
  | .leafInt v => v.map .int
  | .leafStr v => v.map .str
  | .leafBool v => v.map .bool
  | .vecB _ items => (vecValues items).map .list
  | .boxB inner => inner.getValueAny.map .boxed
  | .optB _ value =>
    match value with
    | some inner => inner.getValueAny.map (fun v => .opt (some v))
    | none => some (.opt none)
  | .recordB fields => (recordValues fields).map .record
  | .unionB _ value =>
    match value with
    | none => none
    | some (n, none) => some (.union n none)
    | some (n, some child) => child.getValueAny.map (fun v => .union n (some v))
where
  /-- The `for item in &self.items { results.push(*item.get_value_any()?...) }`
  loop of `VecBuilder::get_value_any`. -/
  vecValues : List BNode → Option (List Value)
    | [] => some []
    | b :: rest =>
      match b.getValueAny with
      | none => none
      | some v => (vecValues rest).map (v :: ·)
  /-- The per-field `*self.field.get_value_any()?...` of the generated record
  `get_value_any`. -/
  recordValues : List (String × BNode) → Option (List (String × Value))
    | [] => some []
    | (n, b) :: rest =>
      match b.getValueAny with
      | none => none
      | some v => (recordValues rest).map ((n, v) :: ·)

/-! ## `get_subfields` -/

/-- `get_subfields` of every builder; `none` models a `panic!`/`unreachable!`
abort.  The scalar leaves always answer `vec![]`, ignoring the path. -/
def BNode.getSubfields : BNode → List String → Option (List String)
  | .leafInt _, _ => some []
  | .leafStr _, _ => some []
  | .leafBool _, _ => some []
  | .vecB _ items, [] =>
    some (if items.isEmpty then ["__new"]
          else "__new" :: "__remove" :: (List.range items.length).map natToString)
  | .vecB _ items, f :: rest =>
    if f = "__remove" then some []
    else if f = "__new" then
      match items.getLast? with
      | none => none
      | some lastItem => lastItem.getSubfields rest
    else
      match parseUsize f with
      | none => none
      | some i =>
        match items.get? i with
        | none => none
        | some item => item.getSubfields rest
  | .boxB inner, p => inner.getSubfields p
  | .optB _ value, [] =>
    some (match value with | some _ => ["__edit"] | none => ["__set"])
  | .optB _ value, f :: rest =>
    if f == "__edit" || f == "__set" then
      match value with
      | some c => c.getSubfields rest
      | none => none
    else none
  | .recordB fields, [] => some (fields.map Prod.fst)
  | .recordB fields, f :: rest =>
    match fields.find? (fun p => p.1 == f) with
    | some p => p.2.getSubfields rest
    | none => none
  | .unionB vs _, [] =>
    some ((vs.filter (fun v => !v.2.1 && v.2.2.isSome)).map Prod.fst)
  | .unionB vs value, f :: rest =>
    match vs.find? (fun v => v.1 == f && !v.2.1 && v.2.2.isSome) with
    | none => none
    | some _v =>
      match value with
      | none => none
      | some (_, none) => none
      | some (n, some c) => if n = f then c.getSubfields rest else none
termination_by n p => (p.length, sizeOf n)

/-! ## `get_options` -/

/-- The `Edit item {i}` choices of the `VecBuilder` main menu. -/
def vecEditChoices (items : List BNode) : List Choice :=
  items.enum.map fun p =>
    { choice_id := natToString p.1
      text := "Edit item " ++ natToString p.1
      needs_action := p.2.getValueAny.isNone }

/-- The `Remove item {i}` choices of the `VecBuilder` removal sub-menu. -/
def vecRemoveChoices (n : Nat) : List Choice :=
  (List.range n).map fun i =>
    { choice_id := natToString i
      text := "Remove item " ++ natToString i
      needs_action := false }

/-- The `needs_action` flag of a union variant choice: non-empty variants need
action while their selected builder is incomplete, everything else is `false`. -/
def unionNeedsAction (value : Option (String × Option BNode)) (v : UVar) : Bool :=
  match v.2.2 with
  | none => false
  | some _ =>
    match value with
    | some (n, some c) => n == v.1 && c.getValueAny.isNone
    | _ => false

/-- `get_options` of every builder; `none` models a `panic!`/`unreachable!`
abort.  Queries are the builders' default prompts. -/
def BNode.getOptions : BNode → List String → Option Options
  | .leafInt _, [] => some { query := "Type an integer", text_input := true, choices := [] }
  | .leafInt _, _ :: _ => none
  | .leafStr _, [] => some { query := "Type a string", text_input := true, choices := [] }
  | .leafStr _, _ :: _ => none
  | .leafBool _, [] =>
    some { query := "True or false?", text_input := false
           choices := [⟨"true", "true", false⟩, ⟨"false", "false", false⟩] }
  | .leafBool _, _ :: _ => none
  | .vecB _ items, [] =>
    some { query := "Select an action", text_input := false
           choices := ⟨"__new", "New element", false⟩ ::
             (if items.isEmpty then []
              else ⟨"__remove", "Remove element", false⟩ :: vecEditChoices items) }
  | .vecB _ items, f :: rest =>
    if f = "__remove" then
      some { query := "Select the item to remove", text_input := false
             choices := vecRemoveChoices items.length }
    else if f = "__new" then
      match items.getLast? with
      | none => none
      | some lastItem => lastItem.getOptions rest
    else
      match parseUsize f with
      | none => none
      | some i =>
        match items.get? i with
        | none => none
        | some item => item.getOptions rest
  | .boxB inner, p => inner.getOptions p
  | .optB _ value, [] =>
    some { query := "Choose an option", text_input := false
           choices := match value with
             | some _ => [⟨"__remove", "Remove value", false⟩, ⟨"__edit", "Edit value", false⟩]
             | none => [⟨"__set", "Set value", false⟩] }
  | .optB _ value, f :: rest =>
    if f == "__edit" || f == "__set" then
      match value with
      | some c => c.getOptions rest
      | none => none
    else none
  | .recordB fields, [] =>
    some { query := "Select the field to edit", text_input := false
           choices := fields.map fun p =>
             ⟨p.1, "Edit " ++ p.1, p.2.getValueAny.isNone⟩ }
  | .recordB fields, f :: rest =>
    match fields.find? (fun p => p.1 == f) with
    | some p => p.2.getOptions rest
    | none => none
  | .unionB vs value, [] =>
    some { query := "Select a variant", text_input := false
           choices := (vs.filter (fun v => !v.2.1)).map fun v =>
             ⟨v.1, v.1, unionNeedsAction value v⟩ }
  | .unionB vs value, f :: rest =>
    match vs.find? (fun v => v.1 == f && !v.2.1 && v.2.2.isSome) with
    | none => none
    | some _v =>
      match value with
      | none => none
      | some (_, none) => none
      | some (n, some c) => if n = f then c.getOptions rest else none
termination_by n p => (p.length, sizeOf n)

/-! ## `apply` -/

/-- The outcome of `apply(&mut self, ...) -> Result<(), ChooseError>`: the node
after the call together with success or the propagated error, or a panic. -/
inductive ApplyRes where
  | ok (n : BNode)
  | err (n : BNode) (e : ChooseError)
  | panic
deriving Repr

/-- Replace the first field named `f` (the in-place `self.#field.apply(...)`
write-back of the generated record `apply`). -/
def setField : List (String × BNode) → String → BNode → List (String × BNode)
  | [], _, _ => []
  | (n, c) :: rest, f, c' =>
    if n = f then (n, c') :: rest else (n, c) :: setField rest f c'

/-- The body of the `type_builder!` macro's `apply`, generic over the target
scalar type's `FromStr` (`from_str`): free text is parsed and replaces the
stored value or fails `InvalidText` with the conversion error message; a
discrete choice fails `UnexpectedChoice`; a non-empty path is a `panic!`. -/
def typeBuilderApply {α : Type} (from_str : String → Except String α)
    (value : Option α) (data : Input) (current_fields : List String) :
    Option (Option α × Option ChooseError) :=
  if current_fields ≠ [] then none
  else some (match data with
    | .Text s =>
      match from_str s with
      | .ok v => (some v, none)
      | .error e => (value, some (.InvalidText e))
    | .Choice _ => (value, some .UnexpectedChoice))

/-- `apply` of every builder.  `panic` models `panic!`/`unreachable!`/
`.unwrap()`/`.expect(...)`/indexing aborts; `err` carries the tree as the
early `?` return leaves it. -/
def BNode.apply : BNode → Input → List String → ApplyRes
  | .leafInt v, data, [] =>
    match data with
    | .Text s =>
      match parseI64 s with
      | .ok n => .ok (.leafInt (some n))
      | .error e => .err (.leafInt v) (.InvalidText e)
    | .Choice _ => .err (.leafInt v) .UnexpectedChoice
  | .leafInt _, _, _ :: _ => .panic
  | .leafStr v, data, [] =>
    match data with
    | .Text s => .ok (.leafStr (some s))
    | .Choice _ => .err (.leafStr v) .UnexpectedChoice
  | .leafStr _, _, _ :: _ => .panic
  | .leafBool v, data, [] =>
    match data with
    | .Choice d =>
      if d = "true" then .ok (.leafBool (some true))
      else if d = "false" then .ok (.leafBool (some false))
      else .err (.leafBool v) .UnexpectedChoice
    | .Text _ => .err (.leafBool v) .UnexpectedText
  | .leafBool _, _, _ :: _ => .panic
  | .vecB e items, data, [] =>
    match data with
    | .Choice d =>
      if d = "__new" then .ok (.vecB e (items ++ [fresh e]))
      else if d = "__remove" then .ok (.vecB e items)
      else
        match parseUsize d with
        | none => .err (.vecB e items) .UnexpectedChoice
        | some i =>
          if i ≥ items.length then .err (.vecB e items) .UnexpectedChoice
          else .ok (.vecB e items)
    | .Text _ => .err (.vecB e items) .UnexpectedText
  | .vecB e items, data, f :: rest =>
    if f = "__remove" then
      match data with
      | .Choice d =>
        match parseUsize d with
        | none => .err (.vecB e items) .UnexpectedChoice
        | some i =>
          if i ≥ items.length then .err (.vecB e items) .UnexpectedChoice
          else .ok (.vecB e (items.eraseIdx i))
      | .Text _ => .err (.vecB e items) .UnexpectedText
    else if f = "__new" then
      match items.getLast? with
      | none => .panic
      | some lastItem =>
        match lastItem.apply data rest with
        | .ok c => .ok (.vecB e (items.set (items.length - 1) c))
        | .err c er => .err (.vecB e (items.set (items.length - 1) c)) er
        | .panic => .panic
    else
      match parseUsize f with
      | none => .panic
      | some i =>
        match items.get? i with
        | none => .panic
        | some item =>
          match item.apply data rest with
          | .ok c => .ok (.vecB e (items.set i c))
          | .err c er => .err (.vecB e (items.set i c)) er
          | .panic => .panic
  | .boxB inner, data, p =>
    match inner.apply data p with
    | .ok c => .ok (.boxB c)
    | .err c er => .err (.boxB c) er
    | .panic => .panic
  | .optB e value, data, [] =>
    match data with
    | .Choice d =>
      if d = "__remove" then .ok (.optB e none)
      else if d = "__edit" then .ok (.optB e value)
      else if d = "__set" then .ok (.optB e (some (fresh e)))
      else .err (.optB e value) .UnexpectedChoice
    | .Text _ => .err (.optB e value) .UnexpectedText
  | .optB e value, data, f :: rest =>
    if f == "__edit" || f == "__set" then
      match value with
      | some c =>
        match c.apply data rest with
        | .ok c' => .ok (.optB e (some c'))
        | .err c' er => .err (.optB e (some c')) er
        | .panic => .panic
      | none => .panic
    else .panic
  | .recordB fields, data, [] =>
    match data with
    | .Choice d =>
      if d ∈ fields.map Prod.fst then .ok (.recordB fields)
      else .err (.recordB fields) .UnexpectedChoice
    | .Text _ => .err (.recordB fields) .UnexpectedText
  | .recordB fields, data, f :: rest =>
    match fields.find? (fun p => p.1 == f) with
    | none => .err (.recordB fields) .UnexpectedChoice
    | some p =>
      match p.2.apply data rest with
      | .ok c' => .ok (.recordB (setField fields f c'))
      | .err c' er => .err (.recordB (setField fields f c')) er
      | .panic => .panic
  | .unionB vs value, data, [] =>
    match data with
    | .Choice d =>
      match vs.find? (fun v => v.1 == d && !v.2.1) with
      | none => .err (.unionB vs value) .UnexpectedChoice
      | some v =>
        match value with
        | some (n, p) =>
          if n = d then .ok (.unionB vs (some (n, p)))
          else .ok (.unionB vs (some (d, v.2.2.map fresh)))
        | none => .ok (.unionB vs (some (d, v.2.2.map fresh)))
    | .Text _ => .err (.unionB vs value) .UnexpectedText
  | .unionB vs value, data, f :: rest =>
    match vs.find? (fun v => v.1 == f && !v.2.1 && v.2.2.isSome) with
    | none => .panic
    | some _v =>
      match value with
      | none => .panic
      | some (_, none) => .panic
      | some (n, some c) =>
        if n = f then
          match c.apply data rest with
          | .ok c' => .ok (.unionB vs (some (n, some c')))
          | .err c' er => .err (.unionB vs (some (n, some c'))) er
          | .panic => .panic
        else .panic
termination_by n _ p => (p.length, sizeOf n)

/-! ## The navigation engine: `Builder<T>` -/

/-- `Builder<T>` from `ibuilder/src/lib.rs`: the root `BuildableValue` plus the
`current_fields` path. -/
structure Builder where
  builder : BNode
  current_fields : List String
deriving Repr

/-- `Builder::from_buildable_value`: empty path. -/
def Builder.fromBuildableValue (inner : BNode) : Builder :=
  { builder := inner, current_fields := [] }

/-- `Builder::is_done`: `self.builder.get_value_any().is_some()`. -/
def Builder.is_done (b : Builder) : Bool :=
  b.builder.getValueAny.isSome

/-- `Builder::finalize`: the extracted value, or `MissingField`. -/
def Builder.finalize (b : Builder) : Except FinalizeError Value :=
  match b.builder.getValueAny with
  | some v => .ok v
  | none => .error .MissingField

/-- The synthetic "Done" choice appended by `Builder::get_options`. -/
def finalizeChoice : Choice := ⟨FINALIZE_ID, "Done", false⟩

/-- The synthetic "Go back" choice appended by `Builder::get_options`. -/
def backChoice : Choice := ⟨BACK_ID, "Go back", false⟩

/-- `Builder::get_options`: the root's menu at the current path, with `Done`
appended at the main menu when `is_done()`, and `Go back` appended at a field
menu.  `none` models a panic inside the node's `get_options`. -/
def Builder.get_options (b : Builder) : Option Options :=
  if b.current_fields = [] then
    (b.builder.getOptions b.current_fields).map fun o =>
      if b.is_done then { o with choices := o.choices ++ [finalizeChoice] } else o
  else
    (b.builder.getOptions b.current_fields).map fun o =>
      { o with choices := o.choices ++ [backChoice] }

/-- The outcome of `Builder::choose`: `finished v` is `Ok(Some(T))`, `next b`
is `Ok(None)` with the new state, `err b e` is `Err(e)` with the state the
early return leaves behind, `panic` an abort. -/
inductive ChooseRes where
  | finished (v : Value)
  | next (b : Builder)
  | err (b : Builder) (e : ChooseError)
  | panic
deriving Repr

/-- The shared tail of `Builder::choose`: look up `get_subfields`; a discrete
choice equal to one of them is applied and then pushed onto the path;
any other input is applied against the focused node and, on success, the last
path segment is popped. -/
def Builder.chooseRest (b : Builder) (input : Input) : ChooseRes :=
  match b.builder.getSubfields b.current_fields with
  | none => .panic
  | some subfields =>
    let direct : ChooseRes :=
      match b.builder.apply input b.current_fields with
      | .ok n => .next ⟨n, b.current_fields.dropLast⟩
      | .err n e => .err ⟨n, b.current_fields⟩ e
      | .panic => .panic
    match input with
    | .Choice d =>
      if d ∈ subfields then
        match b.builder.apply input b.current_fields with
        | .ok n => .next ⟨n, b.current_fields ++ [d]⟩
        | .err n e => .err ⟨n, b.current_fields⟩ e
        | .panic => .panic
      else direct
    | .Text _ => direct

/-- `Builder::choose`: at the main menu the synthetic finalize choice finishes
when `is_done()`; at a field menu the synthetic back choice pops the path;
everything else goes through `chooseRest`. -/
def Builder.choose (b : Builder) (input : Input) : ChooseRes :=
  if b.current_fields = [] then
    match input with
    | .Choice d =>
      if d = FINALIZE_ID ∧ b.is_done = true then
        match b.builder.getValueAny with
        | some v => .finished v
        | none => .panic
      else b.chooseRest input
    | .Text _ => b.chooseRest input
  else
    match input with
    | .Choice d =>
      if d = BACK_ID then .next ⟨b.builder, b.current_fields.dropLast⟩
      else b.chooseRest input
    | .Text _ => b.chooseRest input

/-! ## Lemmas about the decimal printer and parsers -/

theorem charsToNat_append_singleton (l : List Char) (c : Char) :
    charsToNat (l ++ [c]) = charsToNat l * 10 + digitVal c := by
  simp [charsToNat]

theorem digitChar_isDigit {d : Nat} (h : d < 10) : (Char.ofNat (d + 48)).isDigit := by
  interval_cases d <;> decide

theorem digitVal_digitChar {d : Nat} (h : d < 10) : digitVal (Char.ofNat (d + 48)) = d := by
  interval_cases d <;> decide

theorem natChars_ne_nil (n : Nat) : natChars n ≠ [] := by
  unfold natChars
  split <;> simp

theorem natChars_all_digits (n : Nat) : ∀ c ∈ natChars n, c.isDigit := by
  induction n using natChars.induct with
  | case1 n h =>
    rw [natChars, dif_pos h]
    intro c hc
    simp at hc
    subst hc
    exact digitChar_isDigit h
  | case2 n h ih =>
    rw [natChars, dif_neg h]
    intro c hc
    rcases List.mem_append.1 hc with h1 | h1
    · exact ih c h1
    · simp at h1
      subst h1
      exact digitChar_isDigit (Nat.mod_lt _ (by omega))

theorem charsToNat_natChars (n : Nat) : charsToNat (natChars n) = n := by
  induction n using natChars.induct with
  | case1 n h =>
    rw [natChars, dif_pos h]
    show charsToNat ([] ++ [Char.ofNat (n + 48)]) = n
    rw [charsToNat_append_singleton]
    simp [charsToNat, digitVal_digitChar h]
  | case2 n h ih =>
    rw [natChars, dif_neg h]
    rw [charsToNat_append_singleton, ih, digitVal_digitChar (Nat.mod_lt _ (by omega))]
    omega

theorem parseUsize_natToString (n : Nat) : parseUsize (natToString n) = some n := by
  have hne := natChars_ne_nil n
  have hdig := natChars_all_digits n
  rw [parseUsize]
  show (match (natChars n : List Char) with
    | [] => none
    | c :: rest =>
      let digits := if c = '+' then rest else c :: rest
      if digits ≠ [] ∧ digits.all Char.isDigit then some (charsToNat digits) else none) = some n
  rcases hl : natChars n with _ | ⟨c, rest⟩
  · exact absurd hl hne
  · have hc : c.isDigit := hdig c (by rw [hl]; exact List.mem_cons_self c rest)
    have hplus : c ≠ '+' := by
      intro hx
      rw [hx] at hc
      exact absurd hc (by decide)
    simp only [if_neg hplus]
    have hall : (c :: rest).all Char.isDigit := by
      rw [List.all_eq_true]
      intro x hx
      exact hdig x (by rw [hl]; exact hx)
    rw [if_pos ⟨by simp, hall⟩, ← hl, charsToNat_natChars]

theorem natToString_injective : Function.Injective natToString := by
  intro a b h
  have := parseUsize_natToString a
  rw [h, parseUsize_natToString b] at this
  exact (Option.some_injective _ this).symm

theorem natToString_not_reserved (n : Nat) (s : String) (hs : parseUsize s = none) :
    natToString n ≠ s := by
  intro h
  rw [← h, parseUsize_natToString] at hs
  exact Option.noConfusion hs

/-! ## List helper lemmas -/

theorem list_set_get_self {α : Type} (l : List α) (i : Nat) (h : i < l.length) :
    l.set i (l.get ⟨i, h⟩) = l := by
  induction l generalizing i with
  | nil => simp at h
  | cons x xs ih =>
    cases i with
    | zero => simp
    | succ j =>
      simp only [List.set, List.get_cons_succ]
      rw [ih j (by simpa using h)]

theorem list_set_getElem?_self {α : Type} (l : List α) (i : Nat) (a : α)
    (h : l[i]? = some a) : l.set i a = l := by
  induction l generalizing i with
  | nil => simp at h
  | cons x xs ih =>
    cases i with
    | zero => simp_all
    | succ j =>
      simp only [List.getElem?_cons_succ] at h
      simp [List.set, ih j h]

theorem list_set_last_self {α : Type} (l : List α) (a : α)
    (h : l.getLast? = some a) : l.set (l.length - 1) a = l := by
  induction l with
  | nil => simp at h
  | cons x xs ih =>
    cases xs with
    | nil => simp_all
    | cons y t =>
      rw [List.getLast?_cons_cons] at h
      have ih' := ih h
      simp only [List.length_cons] at ih' ⊢
      simpa [List.set] using ih'

theorem setField_find_self (fields : List (String × BNode)) (f : String)
    (p : String × BNode) (h : fields.find? (fun q => q.1 == f) = some p) :
    setField fields f p.2 = fields := by
  induction fields with
  | nil => simp at h
  | cons q rest ih =>
    obtain ⟨n, c⟩ := q
    by_cases hq : n = f
    · subst hq
      simp only [List.find?, beq_self_eq_true] at h
      injection h with h
      subst h
      simp [setField]
    · have hb : (n == f) = false := by simpa using hq
      simp only [List.find?, hb] at h
      simp [setField, hq, ih h]

/-! ## Claim C1: recoverable errors never mutate the tree -/

/-- Node-level frame property: whenever `apply` returns a recoverable error,
the tree it leaves behind is exactly the tree it was called on. -/
theorem BNode.apply_err_frame (n : BNode) (input : Input) (p : List String) :
    ∀ n' e, n.apply input p = .err n' e → n' = n := by
  induction n, input, p using BNode.apply.induct <;> intro n' e h <;>
    (try rename Input => inp) <;>
    first
      | (simp_all [BNode.apply, list_set_last_self, list_set_getElem?_self, setField_find_self];
         done)
      | (cases inp <;>
          simp_all [BNode.apply, list_set_last_self, list_set_getElem?_self, setField_find_self] <;>
          done)
      | (split at h <;> simp_all <;> done)
      | (cases inp <;> simp_all [BNode.apply, List.getElem?_eq_none] <;> done)
      | (rename Option BNode => oval
         cases oval <;> simp_all [BNode.apply] <;> done)
      | (simp only [BNode.apply] at h
         repeat' split at h
         all_goals simp_all
         done)
      | (cases inp <;> simp only [BNode.apply] at h <;> (repeat' split at h) <;>
          simp_all <;> done)
      | (rename Option (String × Option BNode) => uval
         rcases uval with _ | ⟨un, _ | uc⟩ <;> simp only [BNode.apply] at h <;>
           (repeat' split at h) <;> simp_all <;> done)

/-- Claim C1 (engine level): whenever `Builder::choose` returns a recoverable
error (`InvalidText`, `UnexpectedText` or `UnexpectedChoice`), the builder
state it leaves behind — the node tree and the `current_fields` path — is
exactly the state it was called in: no partial mutation and no partial
navigation happens on failure. -/
theorem Builder.choose_err_frame (b : Builder) (input : Input) :
    ∀ b' e, b.choose input = .err b' e → b' = b := by
  obtain ⟨root, path⟩ := b
  intro b' e h
  cases ha : root.apply input path with
  | ok n =>
    simp only [Builder.choose, Builder.chooseRest, ha] at h
    repeat' split at h
    all_goals simp_all
  | err n er =>
    have hn : n = root := BNode.apply_err_frame root input path n er ha
    subst hn
    simp only [Builder.choose, Builder.chooseRest, ha] at h
    repeat' split at h
    all_goals simp_all
  | panic =>
    simp only [Builder.choose, Builder.chooseRest, ha] at h
    repeat' split at h
    all_goals simp_all

/-- Sanity link: the `leafInt` node's `apply` is the generic `type_builder!`
body instantiated with the `i64` parser. -/
theorem leafInt_apply_eq_typeBuilder (v : Option Int) (data : Input) (p : List String) :
    BNode.apply (.leafInt v) data p =
      (match typeBuilderApply parseI64 v data p with
       | none => .panic
       | some (v', none) =>
         .ok (.leafInt v')
       | some (v', some e) => .err (.leafInt v') e) := by
  cases p with
  | nil =>
    cases data with
    | Text s => cases hp : parseI64 s <;> simp [BNode.apply, typeBuilderApply, hp]
    | Choice d => simp [BNode.apply, typeBuilderApply]
  | cons f rest => cases data <;> simp [BNode.apply, typeBuilderApply]

/-- Claim C8: for every leaf cell of a text-parsed scalar type (any `FromStr`
parser `from_str`) and every text input `x`: if `x` parses to `v` then
`apply(Text(x))` at the empty path succeeds and the stored value (what
`extract` returns) becomes `Some v`, replacing any previous value; if `x`
fails to parse with message `e`, `apply` fails with `InvalidText e` and the
previously stored value is unchanged. -/
theorem typeBuilderApply_text_spec (α : Type) (from_str : String → Except String α)
    (value : Option α) (x : String) :
    (∀ v, from_str x = .ok v →
      typeBuilderApply from_str value (.Text x) [] = some (some v, none)) ∧
    (∀ e, from_str x = .error e →
      typeBuilderApply from_str value (.Text x) [] =
        some (value, some (.InvalidText e))) := by
  constructor <;> intro z hz <;> simp [typeBuilderApply, hz]

/-- Witness for C8 with the `i64` parser: `"42"` parses and replaces the old
value `7`; `"abc"` fails with the invalid-digit message and keeps `7`. -/
theorem typeBuilderApply_text_spec_witness :
    typeBuilderApply parseI64 (some 7) (.Text "42") [] = some (some 42, none) ∧
    typeBuilderApply parseI64 (some 7) (.Text "abc") [] =
      some (some 7, some (.InvalidText "invalid digit found in string")) := by
  constructor
  · exact (typeBuilderApply_text_spec Int parseI64 (some 7) "42").1 42 (by rfl)
  · exact (typeBuilderApply_text_spec Int parseI64 (some 7) "abc").2
      "invalid digit found in string" (by rfl)

/-! ## Claim C6: sequence extraction -/

theorem vecValues_eq_none_iff (l : List BNode) :
    BNode.getValueAny.vecValues l = none ↔ ∃ b ∈ l, b.getValueAny = none := by
  induction l with
  | nil => simp [BNode.getValueAny.vecValues]
  | cons b rest ih =>
    cases hb : b.getValueAny <;>
      simp [BNode.getValueAny.vecValues, hb, ih]

theorem vecValues_all_some (l : List BNode) (h : ∀ b ∈ l, b.getValueAny ≠ none) :
    BNode.getValueAny.vecValues l = some (l.filterMap BNode.getValueAny) := by
  induction l with
  | nil => simp [BNode.getValueAny.vecValues]
  | cons b rest ih =>
    cases hb : b.getValueAny with
    | none => exact absurd hb (h b (List.mem_cons_self b rest))
    | some v =>
      have := ih (fun x hx => h x (List.mem_cons_of_mem b hx))
      simp [BNode.getValueAny.vecValues, hb, this]

/-- Claim C6: a sequence node's `extract` (`get_value_any`) returns `None`
exactly when some element's `extract` returns `None`; otherwise it returns
the elements' extracted values in element order; the empty sequence always
extracts to the empty list. -/
theorem vec_getValueAny_spec (e : Shape) (items : List BNode) :
    (BNode.getValueAny (.vecB e items) = none ↔ ∃ b ∈ items, b.getValueAny = none) ∧
    ((∀ b ∈ items, b.getValueAny ≠ none) →
      BNode.getValueAny (.vecB e items) =
        some (.list (items.filterMap BNode.getValueAny))) ∧
    BNode.getValueAny (.vecB e []) = some (.list []) := by
  refine ⟨?_, ?_, rfl⟩
  · cases hv : BNode.getValueAny.vecValues items <;>
      simp [BNode.getValueAny, hv, ← vecValues_eq_none_iff]
  · intro h
    simp [BNode.getValueAny, vecValues_all_some items h]

/-- Witness for C6: one incomplete element makes the vector extract `None`;
two complete elements extract to their values in order. -/
theorem vec_getValueAny_spec_witness :
    BNode.getValueAny (.vecB .leafInt [.leafInt none]) = none ∧
    BNode.getValueAny (.vecB .leafInt [.leafInt (some 1), .leafInt (some 2)]) =
      some (.list [.int 1, .int 2]) := by
  constructor
  · exact (vec_getValueAny_spec .leafInt [.leafInt none]).1.mpr
      ⟨.leafInt none, by simp, rfl⟩
  · have := (vec_getValueAny_spec .leafInt
      [.leafInt (some 1), .leafInt (some 2)]).2.1
      (by intro b hb; fin_cases hb <;> simp [BNode.getValueAny])
    simpa [BNode.getValueAny] using this

/-! ## Claim C3: freshly constructed nodes -/

theorem recordValues_freshFields_eq_none_iff (fs : List (String × Shape)) :
    BNode.getValueAny.recordValues (fresh.freshFields fs) = none ↔
      ∃ p ∈ fs, BNode.getValueAny (fresh p.2) = none := by
  induction fs with
  | nil => simp [fresh.freshFields, BNode.getValueAny.recordValues]
  | cons p rest ih =>
    obtain ⟨n, sh⟩ := p
    cases hb : BNode.getValueAny (fresh sh) <;>
      simp [fresh.freshFields, BNode.getValueAny.recordValues, hb, ih]

/-- Counterexample to claim C3 as stated: a freshly constructed sequence node
with no default has `extract() = Some([])`, not `None`, and as a builder root
`is_done()` is `true`; likewise a fresh optional extracts `Some(None)`. -/
theorem fresh_vec_extract_some :
    BNode.getValueAny (fresh (.vec .leafInt)) = some (.list []) ∧
    (Builder.fromBuildableValue (fresh (.vec .leafInt))).is_done = true ∧
    BNode.getValueAny (fresh (.opt .leafInt)) = some (.opt none) := by
  exact ⟨rfl, rfl, rfl⟩

/-- Claim C3 (amended): immediately after default-free construction, scalar
leaves and unions extract `None` (and a leaf-rooted builder reports
`is_done() = false`), while a fresh sequence extracts `Some([])` and a fresh
optional `Some(None)` (both complete); a fresh box mirrors its inner node and
a fresh record is incomplete exactly when one of its fields is. -/
theorem fresh_extract_characterization :
    BNode.getValueAny (fresh .leafInt) = none ∧
    BNode.getValueAny (fresh .leafStr) = none ∧
    BNode.getValueAny (fresh .leafBool) = none ∧
    (∀ vs, BNode.getValueAny (fresh (.union vs)) = none) ∧
    (Builder.fromBuildableValue (fresh .leafInt)).is_done = false ∧
    (∀ e, BNode.getValueAny (fresh (.vec e)) = some (.list [])) ∧
    (∀ e, BNode.getValueAny (fresh (.opt e)) = some (.opt none)) ∧
    (∀ sh, BNode.getValueAny (fresh (.box sh)) =
      (BNode.getValueAny (fresh sh)).map .boxed) ∧
    (∀ fs, BNode.getValueAny (fresh (.record fs)) = none ↔
      ∃ p ∈ fs, BNode.getValueAny (fresh p.2) = none) := by
  refine ⟨rfl, rfl, rfl, fun vs => rfl, rfl, fun e => rfl, fun e => rfl,
    fun sh => rfl, fun fs => ?_⟩
  have hrw : BNode.getValueAny (fresh (.record fs)) =
      (BNode.getValueAny.recordValues (fresh.freshFields fs)).map .record := rfl
  rw [hrw, Option.map_eq_none']
  exact recordValues_freshFields_eq_none_iff fs

/-! ## Claim C4: the Optional adapter accepts stale choices -/

/-- Counterexample to claim C4 as stated: `apply(set)` at the empty path
succeeds while the optional is already set (silently discarding the stored
child `5`), and `apply(remove)` succeeds while it is unset (a no-op). -/
theorem optB_apply_set_while_set :
    BNode.apply (.optB .leafInt (some (.leafInt (some 5)))) (.Choice "__set") [] =
      .ok (.optB .leafInt (some (.leafInt none))) ∧
    BNode.apply (.optB .leafInt none) (.Choice "__remove") [] =
      .ok (.optB .leafInt none) := by
  constructor <;> simp [BNode.apply, fresh]

/-- Claim C4 (amended): at the empty path the Optional adapter's `apply` does
not check its state: `set` always succeeds and installs a fresh default child
(discarding any existing one), `remove` always succeeds and transitions to
unset (a no-op when already unset), `edit` is accepted as a no-op, any other
discrete choice fails `UnexpectedChoice`, and free text fails
`UnexpectedText`. -/
theorem optB_apply_empty_path_spec (e : Shape) (value : Option BNode) :
    BNode.apply (.optB e value) (.Choice "__set") [] =
      .ok (.optB e (some (fresh e))) ∧
    BNode.apply (.optB e value) (.Choice "__remove") [] = .ok (.optB e none) ∧
    BNode.apply (.optB e value) (.Choice "__edit") [] = .ok (.optB e value) ∧
    (∀ d, d ≠ "__remove" → d ≠ "__edit" → d ≠ "__set" →
      BNode.apply (.optB e value) (.Choice d) [] =
        .err (.optB e value) .UnexpectedChoice) ∧
    (∀ s, BNode.apply (.optB e value) (.Text s) [] =
      .err (.optB e value) .UnexpectedText) := by
  refine ⟨by simp [BNode.apply], by simp [BNode.apply], by simp [BNode.apply],
    fun d h1 h2 h3 => ?_, fun s => by simp [BNode.apply]⟩
  simp [BNode.apply, h1, h2, h3]

/-- Witness for C4 (amended) at a concrete state: the stale choice `"zz"` on a
set optional fails without touching it. -/
theorem optB_apply_empty_path_spec_witness :
    BNode.apply (.optB .leafInt (some (.leafInt (some 3)))) (.Choice "zz") [] =
      .err (.optB .leafInt (some (.leafInt (some 3)))) .UnexpectedChoice :=
  (optB_apply_empty_path_spec .leafInt (some (.leafInt (some 3)))).2.2.2.1
    "zz" (by decide) (by decide) (by decide)

/-! ## Claim C5: union variant selection -/

/-- Claim C5: applying, at the empty path, the discrete choice naming a
non-hidden variant: if that variant is already the active one the call is a
no-op preserving the stored sub-state; otherwise the previous state is
discarded and a freshly default-constructed builder for the selected variant
is installed. -/
theorem unionB_select_spec (vs : List UVar) (value : Option (String × Option BNode))
    (d : String) (v : UVar)
    (hfind : vs.find? (fun w => w.1 == d && !w.2.1) = some v) :
    (∀ p, value = some (d, p) →
      BNode.apply (.unionB vs value) (.Choice d) [] = .ok (.unionB vs value)) ∧
    ((∀ p, value ≠ some (d, p)) →
      BNode.apply (.unionB vs value) (.Choice d) [] =
        .ok (.unionB vs (some (d, v.2.2.map fresh)))) := by
  constructor
  · rintro p rfl
    simp [BNode.apply, hfind]
  · intro hne
    match value with
    | none => simp [BNode.apply, hfind]
    | some (n, p) =>
      have : n ≠ d := fun h => hne p (by rw [h])
      simp [BNode.apply, hfind, this]

/-- Witness for C5 at a concrete union: re-selecting the active variant `"A"`
keeps its half-filled builder; selecting `"B"` installs a fresh one. -/
theorem unionB_select_spec_witness :
    BNode.apply
        (.unionB [("A", false, some .leafInt), ("B", false, some .leafStr)]
          (some ("A", some (.leafInt (some 3)))))
        (.Choice "A") [] =
      .ok (.unionB [("A", false, some .leafInt), ("B", false, some .leafStr)]
        (some ("A", some (.leafInt (some 3))))) ∧
    BNode.apply
        (.unionB [("A", false, some .leafInt), ("B", false, some .leafStr)]
          (some ("A", some (.leafInt (some 3)))))
        (.Choice "B") [] =
      .ok (.unionB [("A", false, some .leafInt), ("B", false, some .leafStr)]
        (some ("B", some (.leafStr none)))) := by
  constructor
  · exact (unionB_select_spec _ _ "A" ("A", false, some .leafInt) (by rfl)).1
      (some (.leafInt (some 3))) rfl
  · exact (unionB_select_spec _ _ "B" ("B", false, some .leafStr) (by rfl)).2
      (by intro p h; simp at h)

/-! ## Claim C7: sequence apply at the empty path -/

/-- Claim C7: at the empty path, `new` appends exactly one freshly
default-constructed element at the tail; a discrete choice parsing as an index
`i < length` succeeds and leaves the items unchanged (a pure validity check);
a choice that does not parse as an index, or parses out of range (other than
`new`/`remove`), fails `UnexpectedChoice`; free text always fails
`UnexpectedText`.  In all failing cases the items are unchanged. -/
theorem vecB_apply_empty_path_spec (e : Shape) (items : List BNode) :
    BNode.apply (.vecB e items) (.Choice "__new") [] =
      .ok (.vecB e (items ++ [fresh e])) ∧
    (∀ d i, parseUsize d = some i → i < items.length →
      BNode.apply (.vecB e items) (.Choice d) [] = .ok (.vecB e items)) ∧
    (∀ d, parseUsize d = none → d ≠ "__new" → d ≠ "__remove" →
      BNode.apply (.vecB e items) (.Choice d) [] =
        .err (.vecB e items) .UnexpectedChoice) ∧
    (∀ d i, parseUsize d = some i → i ≥ items.length →
      BNode.apply (.vecB e items) (.Choice d) [] =
        .err (.vecB e items) .UnexpectedChoice) ∧
    (∀ s, BNode.apply (.vecB e items) (.Text s) [] =
      .err (.vecB e items) .UnexpectedText) := by
  have hnew : parseUsize "__new" = none := by decide
  have hrem : parseUsize "__remove" = none := by decide
  refine ⟨by simp [BNode.apply], fun d i hp hi => ?_, fun d hp h1 h2 => ?_,
    fun d i hp hi => ?_, fun s => by simp [BNode.apply]⟩
  · have h1 : d ≠ "__new" := fun h => by rw [h] at hp; exact absurd hp (by simp [hnew])
    have h2 : d ≠ "__remove" := fun h => by rw [h] at hp; exact absurd hp (by simp [hrem])
    simp [BNode.apply, h1, h2, hp, Nat.not_le.mpr hi]
  · simp [BNode.apply, h1, h2, hp]
  · have h1 : d ≠ "__new" := fun h => by rw [h] at hp; exact absurd hp (by simp [hnew])
    have h2 : d ≠ "__remove" := fun h => by rw [h] at hp; exact absurd hp (by simp [hrem])
    simp [BNode.apply, h1, h2, hp, hi]

/-- Witness for C7 at a one-element vector: index `"0"` is a pure validity
check, `"1"` is out of range, `"zz"` is unparseable. -/
theorem vecB_apply_empty_path_spec_witness :
    BNode.apply (.vecB .leafInt [.leafInt (some 4)]) (.Choice "0") [] =
      .ok (.vecB .leafInt [.leafInt (some 4)]) ∧
    BNode.apply (.vecB .leafInt [.leafInt (some 4)]) (.Choice "1") [] =
      .err (.vecB .leafInt [.leafInt (some 4)]) .UnexpectedChoice ∧
    BNode.apply (.vecB .leafInt [.leafInt (some 4)]) (.Choice "zz") [] =
      .err (.vecB .leafInt [.leafInt (some 4)]) .UnexpectedChoice := by
  refine ⟨(vecB_apply_empty_path_spec .leafInt [.leafInt (some 4)]).2.1 "0" 0
      (by decide) (by decide),
    (vecB_apply_empty_path_spec .leafInt [.leafInt (some 4)]).2.2.2.1 "1" 1
      (by decide) (by decide),
    (vecB_apply_empty_path_spec .leafInt [.leafInt (some 4)]).2.2.1 "zz"
      (by decide) (by decide) (by decide)⟩

/-! ## Claim C10: the back choice at the main menu -/

/-- Claim C10: at the main menu (empty path) `choose(Choice("__back"))` is not
treated as back-navigation but forwarded to the root node's `apply`; for a
record root whose menu does not offer `"__back"` it returns `UnexpectedChoice`
and leaves both the tree and the (empty) path unchanged. -/
theorem choose_back_at_main_menu (fields : List (String × BNode))
    (hb : BACK_ID ∉ fields.map Prod.fst) :
    ({ builder := .recordB fields, current_fields := [] } : Builder).choose
        (.Choice BACK_ID) =
      .err { builder := .recordB fields, current_fields := [] }
        .UnexpectedChoice := by
  have hne : BACK_ID ≠ FINALIZE_ID := by decide
  simp [Builder.choose, Builder.chooseRest, BNode.getSubfields, BNode.apply,
    hne, hb]

/-- Witness for C10: a concrete two-field record root. -/
theorem choose_back_at_main_menu_witness :
    ({ builder := .recordB [("a", .leafInt none), ("b", .leafBool none)],
       current_fields := [] } : Builder).choose (.Choice BACK_ID) =
      .err { builder := .recordB [("a", .leafInt none), ("b", .leafBool none)],
             current_fields := [] } .UnexpectedChoice :=
  choose_back_at_main_menu [("a", .leafInt none), ("b", .leafBool none)]
    (by decide)

/-! ## Name well-formedness

Rust guarantees that the field names of a struct and the variant names of an
enum are pairwise distinct, and the engine documents `FINALIZE_ID`/`BACK_ID`
as reserved: they "must never collide with a generated field/variant/index
name".  `wfNames` states exactly this contract for every record/union node in
a tree. -/

/-- A generated name respects the reserved engine identifiers. -/
def nameOk (s : String) : Prop := s ≠ FINALIZE_ID ∧ s ≠ BACK_ID

/-- Every record/union node in the tree has pairwise-distinct child names,
none of which is a reserved identifier. -/
def BNode.wfNames : BNode → Prop
  | .leafInt _ => True
  | .leafStr _ => True
  | .leafBool _ => True
  | .vecB _ items => wfItems items
  | .boxB inner => inner.wfNames
  | .optB _ value => wfChild value
  | .recordB fields =>
    (fields.map Prod.fst).Nodup ∧ (∀ p ∈ fields, nameOk p.1) ∧ wfFields fields
  | .unionB vs value =>
    (vs.map Prod.fst).Nodup ∧ (∀ v ∈ vs, nameOk v.1) ∧ wfUValue value
where
  /-- All vector items are well-formed. -/
  wfItems : List BNode → Prop
    | [] => True
    | b :: rest => b.wfNames ∧ wfItems rest
  /-- All record children are well-formed. -/
  wfFields : List (String × BNode) → Prop
    | [] => True
    | p :: rest => p.2.wfNames ∧ wfFields rest
  /-- The optional's child, when set, is well-formed. -/
  wfChild : Option BNode → Prop
    | some c => c.wfNames
    | none => True
  /-- The union's selected payload builder, when present, is well-formed. -/
  wfUValue : Option (String × Option BNode) → Prop
    | some (_, some c) => c.wfNames
    | some (_, none) => True
    | none => True

theorem wfItems_mem {l : List BNode} (h : BNode.wfNames.wfItems l) :
    ∀ b ∈ l, b.wfNames := by
  induction l with
  | nil => simp
  | cons x xs ih =>
    intro b hb
    rcases List.mem_cons.1 hb with rfl | hb
    · exact h.1
    · exact ih h.2 b hb

theorem wfFields_mem {l : List (String × BNode)} (h : BNode.wfNames.wfFields l) :
    ∀ p ∈ l, p.2.wfNames := by
  induction l with
  | nil => simp
  | cons x xs ih =>
    intro p hp
    rcases List.mem_cons.1 hp with rfl | hp
    · exact h.1
    · exact ih h.2 p hp

/-- The ids of the vector edit choices are the decimal indices. -/
theorem vecEditChoices_ids (items : List BNode) :
    (vecEditChoices items).map Choice.choice_id =
      (List.range items.length).map natToString := by
  simp [vecEditChoices, Function.comp]
  rw [← List.enum_map_fst items, List.map_map]
  rfl

/-- The ids of the vector remove choices are the decimal indices. -/
theorem vecRemoveChoices_ids (n : Nat) :
    (vecRemoveChoices n).map Choice.choice_id = (List.range n).map natToString := by
  simp [vecRemoveChoices, Function.comp]

theorem range_natToString_nodup (n : Nat) :
    ((List.range n).map natToString).Nodup :=
  (List.nodup_range n).map (fun a b h => natToString_injective h)

theorem not_mem_range_natToString {s : String} (hs : parseUsize s = none) (n : Nat) :
    s ∉ (List.range n).map natToString := by
  intro h
  rcases List.mem_map.1 h with ⟨i, _, hi⟩
  exact natToString_not_reserved i s hs hi

/-- Node-level menu invariant: under the naming contract, every menu a node
produces (at any path) has pairwise-distinct choice ids, none of which is a
reserved engine identifier. -/
theorem getOptions_ids (n : BNode) (p : List String) :
    n.wfNames → ∀ o, n.getOptions p = some o →
      (o.choices.map Choice.choice_id).Nodup ∧
      FINALIZE_ID ∉ o.choices.map Choice.choice_id ∧
      BACK_ID ∉ o.choices.map Choice.choice_id := by
  induction n, p using BNode.getOptions.induct <;> intro hwf o ho <;>
    (try simp only [BNode.getOptions] at ho) <;>
    first
      | (simp at ho
         done)
      | (injection ho with ho
         subst ho
         simp_all [FINALIZE_ID, BACK_ID, nameOk]
         done)
      | (injection ho with ho
         subst ho
         simp [vecRemoveChoices_ids, range_natToString_nodup,
           not_mem_range_natToString (s := FINALIZE_ID) (by decide),
           not_mem_range_natToString (s := BACK_ID) (by decide),
           FINALIZE_ID, BACK_ID]
         done)
      | (injection ho with ho
         subst ho
         by_cases hemp : items.isEmpty <;>
           simp_all [hemp, vecEditChoices_ids, range_natToString_nodup,
             not_mem_range_natToString (s := "__new") (by decide),
             not_mem_range_natToString (s := "__remove") (by decide),
             not_mem_range_natToString (s := FINALIZE_ID) (by decide),
             not_mem_range_natToString (s := BACK_ID) (by decide),
             FINALIZE_ID, BACK_ID] <;> done)
      | (simp_all <;>
          solve_by_elim [wfItems_mem, wfFields_mem, List.mem_of_mem_getLast?,
            List.getElem?_mem, And.right, And.left] <;> done)
      | skip
  case case10 =>
    rename_i elem items rest lastItem hlast hnr ih
    simp [hlast] at ho
    exact ih (wfItems_mem (by simpa [BNode.wfNames] using hwf) lastItem
      (List.mem_of_mem_getLast? hlast)) o ho
  case case12 =>
    rename_i elem items f rest h1 h2 i hp hget
    have hget' : items[i]? = none := by simpa [← List.get?_eq_getElem?] using hget
    simp [h1, h2, hp, hget'] at ho
  case case13 =>
    rename_i elem items f rest h1 h2 i hp item hget ih
    have hget' : items[i]? = some item := by simpa [← List.get?_eq_getElem?] using hget
    simp [h1, h2, hp, hget'] at ho
    exact ih (wfItems_mem (by simpa [BNode.wfNames] using hwf) item
      (List.getElem?_mem hget')) o ho
  case case15 =>
    rename_i elem value
    cases value <;> simp only [BNode.getOptions] at ho <;>
      (injection ho with ho; subst ho; simp [FINALIZE_ID, BACK_ID]; done)
  case case16 =>
    rename_i elem f rest hcond inner ih
    rw [if_pos hcond] at ho
    exact ih (by simpa [BNode.wfNames, BNode.wfNames.wfChild] using hwf) o ho
  case case18 =>
    rename_i elem value f rest hcond
    cases value <;> simp [BNode.getOptions, hcond] at ho
  case case20 =>
    rename_i fields f rest pp hfind ih
    rw [hfind] at ho
    have hwf' : (fields.map Prod.fst).Nodup ∧ (∀ p ∈ fields, nameOk p.1) ∧
        BNode.wfNames.wfFields fields := by simpa [BNode.wfNames] using hwf
    exact ih (wfFields_mem hwf'.2.2 pp (List.mem_of_find?_eq_some hfind)) o ho
  case case21 =>
    rename_i fields f rest hfind
    rw [hfind] at ho
    exact absurd ho (by simp)
  case case23 =>
    rename_i vs value f rest hfind
    rcases value with _ | ⟨n, _ | c⟩ <;>
      (simp only [BNode.getOptions] at ho; rw [hfind] at ho; exact absurd ho (by simp))
  case case26 =>
    rename_i vs rest v n child hfind ih
    rw [hfind] at ho
    simp at ho
    have hwfc : child.wfNames := by
      have h := hwf
      simp only [BNode.wfNames, BNode.wfNames.wfUValue] at h
      exact h.2.2
    exact ih hwfc o ho
  case case7 =>
    rename_i elem items
    injection ho with ho
    subst ho
    by_cases hemp : items.isEmpty <;>
      simp [hemp, vecEditChoices_ids, range_natToString_nodup,
        not_mem_range_natToString (s := "__new") (by decide),
        not_mem_range_natToString (s := "__remove") (by decide),
        not_mem_range_natToString (s := FINALIZE_ID) (by decide),
        not_mem_range_natToString (s := BACK_ID) (by decide),
        FINALIZE_ID, BACK_ID] <;>
      exact ⟨fun x _ => natToString_not_reserved x _ (by decide),
        fun x _ => natToString_not_reserved x _ (by decide)⟩
  case case8 =>
    rename_i elem items rest
    simp at ho
    subst ho
    simp [vecRemoveChoices_ids, range_natToString_nodup,
      not_mem_range_natToString (s := FINALIZE_ID) (by decide),
      not_mem_range_natToString (s := BACK_ID) (by decide),
      FINALIZE_ID, BACK_ID]
    exact ⟨fun x _ => natToString_not_reserved x _ (by decide),
      fun x _ => natToString_not_reserved x _ (by decide)⟩
  case case19 =>
    rename_i fields
    injection ho with ho
    subst ho
    have hwf' : (fields.map Prod.fst).Nodup ∧ (∀ p ∈ fields, nameOk p.1) ∧
        BNode.wfNames.wfFields fields := by simpa [BNode.wfNames] using hwf
    have hids : (fields.map (fun p =>
        ({ choice_id := p.1, text := "Edit " ++ p.1,
           needs_action := p.2.getValueAny.isNone } : Choice))).map Choice.choice_id =
        fields.map Prod.fst := by
      simp [List.map_map, Function.comp]
    refine ⟨by rw [hids]; exact hwf'.1, ?_, ?_⟩ <;>
      · rw [hids]
        intro hmem
        rcases List.mem_map.1 hmem with ⟨p, hp, hp1⟩
        have := hwf'.2.1 p hp
        rw [hp1] at this
        simp [nameOk] at this
  case case22 =>
    rename_i vs value
    injection ho with ho
    subst ho
    have hwf' : (vs.map Prod.fst).Nodup ∧ (∀ v ∈ vs, nameOk v.1) := by
      have h := hwf
      simp only [BNode.wfNames] at h
      exact ⟨h.1, h.2.1⟩
    have hids : ((vs.filter (fun v => !v.2.1)).map (fun v =>
        (⟨v.1, v.1, unionNeedsAction value v⟩ : Choice))).map Choice.choice_id =
        (vs.filter (fun v => !v.2.1)).map Prod.fst := by
      simp [List.map_map, Function.comp]
    have hsub : ((vs.filter (fun v => !v.2.1)).map Prod.fst).Sublist (vs.map Prod.fst) :=
      (List.filter_sublist vs).map Prod.fst
    refine ⟨by rw [hids]; exact hwf'.1.sublist hsub, ?_, ?_⟩ <;>
      · rw [hids]
        intro hmem
        rcases List.mem_map.1 hmem with ⟨v, hv, hv1⟩
        have := hwf'.2 v (List.mem_of_mem_filter hv)
        rw [hv1] at this
        simp [nameOk] at this


/-- Under the naming contract, no node at the empty path accepts the reserved
finalize identifier: `apply` answers `UnexpectedChoice` leaving the node
unchanged, and the identifier is never among the node's subfields. -/
theorem finalize_not_accepted : ∀ n : BNode, n.wfNames →
    n.apply (.Choice FINALIZE_ID) [] = .err n .UnexpectedChoice ∧
    ∃ sf, n.getSubfields [] = some sf ∧ FINALIZE_ID ∉ sf
  | .leafInt v, _ => by
    refine ⟨by simp [BNode.apply], [], by simp [BNode.getSubfields], by simp⟩
  | .leafStr v, _ => by
    refine ⟨by simp [BNode.apply], [], by simp [BNode.getSubfields], by simp⟩
  | .leafBool v, _ => by
    refine ⟨by simp [BNode.apply, FINALIZE_ID], [], by simp [BNode.getSubfields], by simp⟩
  | .vecB e items, _ => by
    have hp : parseUsize FINALIZE_ID = none := by decide
    constructor
    · simp [BNode.apply, FINALIZE_ID, (by decide : parseUsize "__finalize" = none)]
    · refine ⟨if items.isEmpty then ["__new"]
        else "__new" :: "__remove" :: (List.range items.length).map natToString,
        by simp [BNode.getSubfields], ?_⟩
      by_cases hemp : items.isEmpty <;>
        simp [hemp, FINALIZE_ID, not_mem_range_natToString
          (s := "__finalize") (by decide)]
  | .boxB inner, hwf => by
    have ih := finalize_not_accepted inner (by simpa [BNode.wfNames] using hwf)
    obtain ⟨ha, sf, hsf, hni⟩ := ih
    refine ⟨by simp [BNode.apply, ha], sf, by simpa [BNode.getSubfields] using hsf, hni⟩
  | .optB e value, _ => by
    constructor
    · simp [BNode.apply, FINALIZE_ID]
    · cases value with
      | none => exact ⟨["__set"], by simp [BNode.getSubfields], by simp [FINALIZE_ID]⟩
      | some c => exact ⟨["__edit"], by simp [BNode.getSubfields], by simp [FINALIZE_ID]⟩
  | .recordB fields, hwf => by
    have hwf' : (fields.map Prod.fst).Nodup ∧ (∀ p ∈ fields, nameOk p.1) ∧
        BNode.wfNames.wfFields fields := by simpa [BNode.wfNames] using hwf
    have hni : FINALIZE_ID ∉ fields.map Prod.fst := by
      intro hmem
      rcases List.mem_map.1 hmem with ⟨p, hp, hp1⟩
      exact (hwf'.2.1 p hp).1 hp1
    constructor
    · simp [BNode.apply, hni]
    · exact ⟨fields.map Prod.fst, by simp [BNode.getSubfields], hni⟩
  | .unionB vs value, hwf => by
    have hwf' : (vs.map Prod.fst).Nodup ∧ (∀ v ∈ vs, nameOk v.1) ∧
        BNode.wfNames.wfUValue value := by simpa [BNode.wfNames] using hwf
    have hfind : vs.find? (fun v => v.1 == FINALIZE_ID && !v.2.1) = none := by
      rw [List.find?_eq_none]
      intro v hv
      simp [(hwf'.2.1 v hv).1]
    constructor
    · simp [BNode.apply, hfind]
    · refine ⟨(vs.filter (fun v => !v.2.1 && v.2.2.isSome)).map Prod.fst,
        by simp [BNode.getSubfields], ?_⟩
      intro hmem
      rcases List.mem_map.1 hmem with ⟨v, hv, hv1⟩
      exact (hwf'.2.1 v (List.mem_of_mem_filter hv)).1 hv1

/-- Counterexample to claim C2 as stated: a reachable state (three `choose`
steps from a fresh one-field record builder) in which `is_done()` is `true`
yet the menu `get_options()` returns does not contain the synthetic
`"__finalize"` choice — the claimed equivalence fails away from the main
menu. -/
theorem finalize_iff_done_fails_when_focused :
    (Builder.fromBuildableValue (fresh (.record [("a", .leafInt)]))).choose
        (.Choice "a") =
      .next { builder := .recordB [("a", .leafInt none)], current_fields := ["a"] } ∧
    ({ builder := .recordB [("a", .leafInt none)],
       current_fields := ["a"] } : Builder).choose (.Text "5") =
      .next { builder := .recordB [("a", .leafInt (some 5))], current_fields := [] } ∧
    ({ builder := .recordB [("a", .leafInt (some 5))],
       current_fields := [] } : Builder).choose (.Choice "a") =
      .next { builder := .recordB [("a", .leafInt (some 5))],
              current_fields := ["a"] } ∧
    ({ builder := .recordB [("a", .leafInt (some 5))],
       current_fields := ["a"] } : Builder).is_done = true ∧
    ({ builder := .recordB [("a", .leafInt (some 5))],
       current_fields := ["a"] } : Builder).get_options =
      some { query := "Type an integer", text_input := true,
             choices := [backChoice] } ∧
    FINALIZE_ID ∉ ([backChoice].map Choice.choice_id) := by
  refine ⟨?_, ?_, ?_, rfl, ?_, by decide⟩
  · simp [Builder.fromBuildableValue, Builder.choose, Builder.chooseRest,
      Builder.is_done, BNode.getValueAny, BNode.getValueAny.recordValues,
      fresh, fresh.freshFields, BNode.getSubfields, BNode.apply,
      FINALIZE_ID]
  · simp [Builder.choose, Builder.chooseRest, BNode.getSubfields, BNode.apply,
      BACK_ID, parseI64, charsToNat, digitVal, setField]
  · simp [Builder.choose, Builder.chooseRest, Builder.is_done,
      BNode.getValueAny, BNode.getValueAny.recordValues,
      BNode.getSubfields, BNode.apply, FINALIZE_ID]
  · simp [Builder.get_options, BNode.getOptions]

/-- The shared tail of `choose` can only continue or fail, never finish. -/
theorem chooseRest_ne_finished (b : Builder) (input : Input) (v : Value) :
    b.chooseRest input ≠ .finished v := by
  unfold Builder.chooseRest
  (repeat' split) <;> simp

/-- Claim C2 (amended): at the main menu (empty path) the menu returned by
`get_options()` contains the synthetic finish choice (id `"__finalize"`)
exactly when `is_done()` is true, and choosing `"__finalize"` at the main menu
while it is not offered returns `UnexpectedChoice` without finalizing or
changing state (under the documented naming contract); away from the main menu
the finish transition can never fire at all. -/
theorem finalize_iff_done_at_main_menu (b : Builder) (hwf : b.builder.wfNames) :
    (b.current_fields = [] →
      (∀ o, b.get_options = some o →
        (FINALIZE_ID ∈ o.choices.map Choice.choice_id ↔ b.is_done = true)) ∧
      (b.is_done = false →
        b.choose (.Choice FINALIZE_ID) = .err b .UnexpectedChoice)) ∧
    (b.current_fields ≠ [] →
      ∀ v, b.choose (.Choice FINALIZE_ID) ≠ .finished v) := by
  obtain ⟨root, path⟩ := b
  simp only at hwf
  constructor
  · rintro hpath
    simp only at hpath
    subst hpath
    constructor
    · intro o ho
      unfold Builder.get_options at ho
      rw [if_pos rfl] at ho
      rcases Option.map_eq_some'.1 ho with ⟨o0, ho0, rfl⟩
      obtain ⟨hnd, hfin, hback⟩ := getOptions_ids root [] hwf o0 ho0
      by_cases hdone : ({ builder := root, current_fields := [] } : Builder).is_done <;>
        simp [hdone, hfin, finalizeChoice]
    · intro hdone
      obtain ⟨happly, sf, hsf, hnotin⟩ := finalize_not_accepted root hwf
      unfold Builder.choose Builder.chooseRest
      simp [hdone, hsf, hnotin, happly]
  · intro hpath v
    unfold Builder.choose
    simp only at hpath
    rw [if_neg hpath]
    split
    · split
      · simp
      · exact chooseRest_ne_finished _ _ v
    · exact chooseRest_ne_finished _ _ v

/-- Witness for C2 (amended) at a concrete one-field record: incomplete, the
menu has no finish choice and choosing it errs; complete, the menu has it. -/
theorem finalize_iff_done_at_main_menu_witness :
    (FINALIZE_ID ∈
        (({ query := "Select the field to edit", text_input := false,
            choices := [⟨"a", "Edit a", true⟩] } : Options)).choices.map
          Choice.choice_id ↔
      ({ builder := .recordB [("a", .leafInt none)],
         current_fields := [] } : Builder).is_done = true) ∧
    ({ builder := .recordB [("a", .leafInt none)],
       current_fields := [] } : Builder).choose (.Choice FINALIZE_ID) =
      .err { builder := .recordB [("a", .leafInt none)], current_fields := [] }
        .UnexpectedChoice := by
  constructor
  · exact ((finalize_iff_done_at_main_menu
      { builder := .recordB [("a", .leafInt none)], current_fields := [] }
      (by simp [BNode.wfNames, BNode.wfNames.wfFields, nameOk, FINALIZE_ID,
        BACK_ID])).1 rfl).1 _
      (by simp [Builder.get_options, Builder.is_done, BNode.getOptions,
        BNode.getValueAny, BNode.getValueAny.recordValues])
  · exact ((finalize_iff_done_at_main_menu
      { builder := .recordB [("a", .leafInt none)], current_fields := [] }
      (by simp [BNode.wfNames, BNode.wfNames.wfFields, nameOk, FINALIZE_ID,
        BACK_ID])).1 rfl).2
      (by simp [Builder.is_done, BNode.getValueAny,
        BNode.getValueAny.recordValues])

/-- Claim C9: in every `Options` value returned by `Builder::get_options`,
the choice identifiers are pairwise distinct — including the synthetic
`"__finalize"` and `"__back"` identifiers appended by the engine, which never
collide with a field, variant or index identifier produced by a node (under
the documented naming contract). -/
theorem builder_get_options_ids_nodup (b : Builder) (hwf : b.builder.wfNames) :
    ∀ o, b.get_options = some o → (o.choices.map Choice.choice_id).Nodup := by
  intro o ho
  unfold Builder.get_options at ho
  by_cases hpath : b.current_fields = []
  · rw [if_pos hpath] at ho
    rcases Option.map_eq_some'.1 ho with ⟨o0, ho0, rfl⟩
    obtain ⟨hnd, hfin, hback⟩ := getOptions_ids _ _ hwf o0 ho0
    by_cases hdone : b.is_done <;>
      simp [hdone, hnd, hfin, finalizeChoice, List.nodup_append]
  · rw [if_neg hpath] at ho
    rcases Option.map_eq_some'.1 ho with ⟨o0, ho0, rfl⟩
    obtain ⟨hnd, hfin, hback⟩ := getOptions_ids _ _ hwf o0 ho0
    simp [hnd, hback, backChoice, List.nodup_append]

/-- Witness for C9: the full main menu of a complete one-field record builder
(`Edit a` plus the appended `Done`) has distinct ids. -/
theorem builder_get_options_ids_nodup_witness :
    ((({ query := "Select the field to edit", text_input := false,
         choices := [⟨"a", "Edit a", false⟩, finalizeChoice] } : Options)).choices.map
      Choice.choice_id).Nodup := by
  exact builder_get_options_ids_nodup
    { builder := .recordB [("a", .leafInt (some 1))], current_fields := [] }
    (by simp [BNode.wfNames, BNode.wfNames.wfFields, nameOk, FINALIZE_ID, BACK_ID])
    _ (by simp [Builder.get_options, Builder.is_done, BNode.getOptions,
      BNode.getValueAny, BNode.getValueAny.recordValues])

/-- Witness for C1: a stale choice on a one-field record root errs and, per
the frame theorem, leaves the concrete state exactly as it was. -/
theorem choose_err_frame_witness :
    ({ builder := .recordB [("a", .leafInt none)],
       current_fields := [] } : Builder) =
      { builder := .recordB [("a", .leafInt none)], current_fields := [] } := by
  exact Builder.choose_err_frame
    { builder := .recordB [("a", .leafInt none)], current_fields := [] }
    (.Choice "zz") _ .UnexpectedChoice
    (by simp [Builder.choose, Builder.chooseRest, Builder.is_done,
      BNode.getValueAny, BNode.getValueAny.recordValues, BNode.getSubfields,
      BNode.apply, FINALIZE_ID])

end IBuilder
